import Mathlib

/- Shallow embedding of the RouterWay static file server core
   (src/cache.rs, src/server.rs): the concurrent file cache
   (admission, lookup, time-based eviction, startup population) and the
   request-dispatch logic (proxy-prefix routing, static file dispatch,
   error-page resolution), together with theorems checking the
   documented properties of these operations. -/

set_option linter.unusedVariables false

/-! String helpers mirroring the Rust `str` operations used by the source
    (`starts_with`, `ends_with`, `contains`, slicing off one leading byte).
    Strings are treated as their character lists. -/

/-- Model of Rust `&s[n..]` for character-aligned cuts: drop `n` characters. -/
def strDrop (s : String) (n : Nat) : String := ⟨s.data.drop n⟩

/-- Model of Rust `str::starts_with`. -/
def startsWithS (s pre : String) : Bool := pre.data.isPrefixOf s.data

/-- Model of Rust `str::ends_with`. -/
def endsWithS (s suf : String) : Bool := suf.data.isSuffixOf s.data

/-- Substring occurrence test on character lists (Rust `str::contains`). -/
def hasInfix : List Char → List Char → Bool
  | [], pat => pat.isEmpty
  | l@(_ :: t), pat => pat.isPrefixOf l || hasInfix t pat

/-- Model of Rust `str::contains` with a string pattern. -/
def strContains (s pat : String) : Bool := hasInfix s.data pat.data

/-! Machine arithmetic: the cache's total-size counter is a Rust `AtomicU64`
    whose `fetch_add`/`fetch_sub` wrap modulo `2^64`. -/

/-- Modulus of Rust `u64` arithmetic. -/
def U64LIM : Nat := 18446744073709551616

/-- Wrapping `u64` addition (`AtomicU64::fetch_add`). -/
def u64add (a b : Nat) : Nat := (a + b) % U64LIM

/-- Wrapping `u64` subtraction (`AtomicU64::fetch_sub`). -/
def u64sub (a b : Nat) : Nat := (a + (U64LIM - b % U64LIM)) % U64LIM

/-! Data model: `CachedFile` and `FileCache` from src/cache.rs.
    Content is a byte list; timestamps are seconds since the epoch.
    The `Arc`-shared atomics (`access_count`, `last_access`) are plain
    numbers here; operations that read the clock take `now` explicitly. -/

/-- Model of `CachedFile` (src/cache.rs): content bytes, mime type,
last-modified timestamp, access counter, last-access timestamp, size. -/
structure CachedFile where
  content : List Nat
  mime_type : String
  last_modified : Nat
  access_count : Nat
  last_access : Nat
  size : Nat
  deriving DecidableEq, Repr

/-- Model of `CachedFile::new`: size is the content length, the access
counter starts at zero and last-access is the creation instant `now`. -/
def CachedFile.new (content : List Nat) (mime_type : String)
    (last_modified : Nat) (now : Nat) : CachedFile :=
  { content := content
    mime_type := mime_type
    last_modified := last_modified
    access_count := 0
    last_access := now
    size := content.length }

/-- Model of `CachedFile::access` / the bookkeeping half of
`CachedFile::get_content`: bump the access counter and stamp `last_access`
with the current time. In the source this mutates the `Arc`-shared atomic
cells; here it returns the updated entry. -/
def CachedFile.access (e : CachedFile) (now : Nat) : CachedFile :=
  { e with access_count := e.access_count + 1, last_access := now }

/-- The `DashMap<String, CachedFile>` is modelled as an association list
with unique keys; ordering is irrelevant to every lookup. -/
abbrev CacheMap := List (String × CachedFile)

/-- Lookup in the map model (`DashMap::get`). -/
def mapLookup (m : CacheMap) (k : String) : Option CachedFile :=
  (m.find? (fun p => p.1 == k)).map (fun p => p.2)

/-- Insert in the map model (`DashMap::insert`): replaces any entry already
stored under the key. -/
def mapInsert (m : CacheMap) (k : String) (v : CachedFile) : CacheMap :=
  (k, v) :: m.filter (fun p => p.1 != k)

/-- Sum of the sizes of all entries currently stored in the map. -/
def mapSum (m : CacheMap) : Nat := (m.map (fun p => p.2.size)).sum

/-- Model of `FileCache` (src/cache.rs). -/
structure FileCache where
  cache : CacheMap
  total_size : Nat
  max_size : Nat
  root_path : String
  enabled : Bool
  deriving DecidableEq, Repr

/-- Model of `FileCache::new`: empty map, zero total. -/
def FileCache.new (root_path : String) (max_size : Nat) (enabled : Bool) :
    FileCache :=
  { cache := []
    total_size := 0
    max_size := max_size
    root_path := root_path
    enabled := enabled }

/-- Per-file ceiling from the source: `10 * 1024 * 1024` bytes. -/
def maxFileSize : Nat := 10 * 1024 * 1024

/-- Model of `FileCache::get`: `None` when disabled; strip one leading
slash; map an empty or bare-slash normalized path to `index.html`; then a
pure map lookup. The source's `entry.clone()` neither touches the access
counter nor the last-access stamp, so the cache state is unchanged and the
returned entry is exactly the stored one. -/
def FileCache.get (c : FileCache) (path : String) : Option CachedFile :=
  if ¬c.enabled then none
  else
    let normalized_path := if startsWithS path "/" then strDrop path 1 else path
    let cache_key :=
      if normalized_path = "" ∨ normalized_path = "/" then "index.html"
      else normalized_path
    mapLookup c.cache cache_key

/-- Normalization used by `FileCache::get_fast` and by
`handle_static_file` in src/server.rs (the two sites carry the same
`match`): `"/"` and `""` map to `index.html`, otherwise one leading slash
is stripped. -/
def fastKey (path : String) : String :=
  if path = "/" ∨ path = "" then "index.html"
  else if startsWithS path "/" then strDrop path 1
  else path

/-- Model of `FileCache::get_fast`: `None` when disabled, otherwise a pure
map lookup under `fastKey`. -/
def FileCache.get_fast (c : FileCache) (path : String) : Option CachedFile :=
  if ¬c.enabled then none
  else mapLookup c.cache (fastKey path)

/-- Model of `FileCache::insert_async`: refuse silently when disabled or
when the content exceeds the per-file ceiling; refuse when the projected
total exceeds the budget; otherwise store a fresh entry (last-modified and
last-access both `now`) and add its size to the total counter. -/
def FileCache.insert_async (c : FileCache) (path : String)
    (content : List Nat) (mime_type : String) (now : Nat) : FileCache :=
  if ¬c.enabled ∨ content.length > maxFileSize then c
  else if c.total_size + content.length > c.max_size then c
  else
    let cached_file := CachedFile.new content mime_type now now
    { c with
      cache := mapInsert c.cache path cached_file
      total_size := u64add c.total_size cached_file.size }

/-- Model of `FileCache::cleanup_old_entries`: no-op when disabled; with a
single current time `now`, retain exactly the entries whose age
`now - last_access` (saturating, as in the source's `saturating_sub`) is
at most `max_age_seconds`, and subtract the freed size from the total
counter when anything was removed. -/
def FileCache.cleanup_old_entries (c : FileCache) (max_age_seconds : Nat)
    (now : Nat) : FileCache :=
  if ¬c.enabled then c
  else
    let removed :=
      c.cache.filter (fun p => decide (now - p.2.last_access > max_age_seconds))
    let retained :=
      c.cache.filter (fun p => decide (¬(now - p.2.last_access > max_age_seconds)))
    let freed_size := (removed.map (fun p => p.2.size)).sum
    { c with
      cache := retained
      total_size :=
        if removed.length > 0 then u64sub c.total_size freed_size
        else c.total_size }

/-! General lemmas about the helpers. -/

theorem isPrefixOf_append_self (x b : List Char) :
    x.isPrefixOf (x ++ b) = true := by
  induction x with
  | nil => simp [List.isPrefixOf]
  | cons c cs ih => simp [List.isPrefixOf, ih]

theorem hasInfix_of_isPrefixOf {l pat : List Char}
    (h : pat.isPrefixOf l = true) : hasInfix l pat = true := by
  cases l with
  | nil =>
    cases pat with
    | nil => rfl
    | cons c t => simp [List.isPrefixOf] at h
  | cons c t => simp only [hasInfix, h, Bool.true_or]

theorem hasInfix_append_mid (a x b : List Char) :
    hasInfix (a ++ x ++ b) x = true := by
  induction a with
  | nil =>
    refine hasInfix_of_isPrefixOf ?_
    simp [isPrefixOf_append_self]
  | cons c cs ih =>
    show hasInfix (c :: (cs ++ x ++ b)) x = true
    simp only [hasInfix]
    rw [ih, Bool.or_true]

theorem u64add_eq {a b : Nat} (h : a + b < U64LIM) : u64add a b = a + b := by
  unfold u64add
  exact Nat.mod_eq_of_lt h

theorem u64sub_eq {a b : Nat} (hba : b ≤ a) (ha : a < U64LIM) :
    u64sub a b = a - b := by
  unfold u64sub
  have hb : b < U64LIM := Nat.lt_of_le_of_lt hba ha
  rw [Nat.mod_eq_of_lt hb]
  have h1 : a + (U64LIM - b) = U64LIM + (a - b) := by omega
  rw [h1, Nat.add_mod_left]
  exact Nat.mod_eq_of_lt (by omega)

theorem mapLookup_insert_self (m : CacheMap) (k : String) (v : CachedFile) :
    mapLookup (mapInsert m k v) k = some v := by
  simp [mapLookup, mapInsert, List.find?]

/-! Evaluation helpers for `FileCache.get` at the three root-path spellings;
    the path argument is concrete, so the normalization reduces. -/

theorem get_empty_path (c : FileCache) :
    c.get "" = if ¬c.enabled then none else mapLookup c.cache "index.html" := rfl

theorem get_slash_path (c : FileCache) :
    c.get "/" = if ¬c.enabled then none else mapLookup c.cache "index.html" := rfl

theorem get_index_path (c : FileCache) :
    c.get "index.html" =
      if ¬c.enabled then none else mapLookup c.cache "index.html" := rfl

/-! Claim C2 — the total-size counter versus the true sum of stored sizes. -/

/-- Fixture for C2: a fresh enabled cache with a 100-byte budget. -/
def exC2cache : FileCache := FileCache.new "Public" 100 true

/-- Fixture for C2: the state after inserting one byte under `"a"` twice. -/
def exC2after : FileCache :=
  (exC2cache.insert_async "a" [7] "text/plain" 1).insert_async "a" [8] "text/plain" 2

/-- C2: the claimed invariant `total_size = mapSum cache` breaks permanently
when an insert replaces an entry already stored under the same key: starting
from the empty cache, inserting a 1-byte file under `"a"` and then inserting
another 1-byte file under the same key leaves one stored entry of size 1 but a
total-size counter of 2 — `DashMap::insert` drops the replaced entry while
`insert_async` never subtracts its size. -/
theorem insert_replace_drifts_total :
    exC2after.total_size = 2 ∧ mapSum exC2after.cache = 1 ∧
      ¬exC2after.total_size = mapSum exC2after.cache := by
  refine ⟨by decide, by decide, by decide⟩

/-! Claim C3 — admission behaviour of `insert_async`. -/

/-- C3: `insert_async` is a silent no-op (whole state unchanged) when the
cache is disabled, the content exceeds the 10 MiB per-file ceiling, or the
projected total exceeds the budget; otherwise it stores a fresh entry with
last-modified `now` under the given key and the total-size counter grows by
exactly the content length. -/
theorem insert_async_admission (c : FileCache) (path : String)
    (content : List Nat) (mime_type : String) (now : Nat)
    (hov : c.total_size + content.length < U64LIM) :
    ((c.enabled = false ∨ content.length > maxFileSize ∨
        c.total_size + content.length > c.max_size) →
      c.insert_async path content mime_type now = c) ∧
    (c.enabled = true → content.length ≤ maxFileSize →
      c.total_size + content.length ≤ c.max_size →
      (c.insert_async path content mime_type now).cache =
        mapInsert c.cache path (CachedFile.new content mime_type now now) ∧
      (c.insert_async path content mime_type now).total_size =
        c.total_size + content.length ∧
      mapLookup (c.insert_async path content mime_type now).cache path =
        some (CachedFile.new content mime_type now now) ∧
      (CachedFile.new content mime_type now now).last_modified = now) := by
  constructor
  · intro h
    unfold FileCache.insert_async
    split
    · rfl
    · split
      · rfl
      · rename_i h1 h2
        rcases h with h | h | h
        · exact absurd (Or.inl (by simp [h])) h1
        · exact absurd (Or.inr h) h1
        · exact absurd h h2
  · intro hen hlen hbud
    have h1 : ¬(¬c.enabled = true ∨ content.length > maxFileSize) := by
      simp [hen]; omega
    have h2 : ¬(c.total_size + content.length > c.max_size) := by omega
    have hsz : (CachedFile.new content mime_type now now).size = content.length := rfl
    unfold FileCache.insert_async
    rw [if_neg h1, if_neg h2]
    refine ⟨rfl, ?_, ?_, rfl⟩
    · show u64add c.total_size (CachedFile.new content mime_type now now).size =
        c.total_size + content.length
      rw [hsz]
      exact u64add_eq hov
    · exact mapLookup_insert_self c.cache path _

/-- C3 witness: concrete successful insertion into a fresh enabled cache. -/
theorem insert_async_admission_witness :
    (FileCache.new "r" 100 true).total_size + [1, 2, 3].length < U64LIM ∧
    ((FileCache.new "r" 100 true).insert_async "a" [1, 2, 3] "m" 7).total_size =
      (FileCache.new "r" 100 true).total_size + [1, 2, 3].length :=
  ⟨by decide,
    ((insert_async_admission (FileCache.new "r" 100 true) "a" [1, 2, 3] "m" 7
      (by decide)).2 rfl (by decide) (by decide)).2.1⟩

/-! Claim C5 — the three spellings of the root path hit the same entry. -/

/-- C5: whenever an entry is stored under the key `index.html` in an enabled
cache, `get ""`, `get "/"` and `get "index.html"` all return that entry. -/
theorem get_root_alias (c : FileCache) (e : CachedFile)
    (hen : c.enabled = true)
    (hidx : mapLookup c.cache "index.html" = some e) :
    c.get "" = some e ∧ c.get "/" = some e ∧ c.get "index.html" = some e := by
  rw [get_empty_path, get_slash_path, get_index_path]
  simp [hen, hidx]

/-- Fixture for C5/C10: a two-byte `index.html` entry. -/
def exIndexEntry : CachedFile :=
  CachedFile.new [104, 105] "text/html; charset=utf-8" 0 0

/-- Fixture for C5: an enabled cache holding only `index.html`. -/
def exC5cache : FileCache :=
  { cache := [("index.html", exIndexEntry)]
    total_size := 2
    max_size := 100
    root_path := "Public"
    enabled := true }

/-- C5 witness: the alias property at a concrete cache state. -/
theorem get_root_alias_witness :
    exC5cache.enabled = true ∧
    mapLookup exC5cache.cache "index.html" = some exIndexEntry ∧
    (exC5cache.get "" = some exIndexEntry ∧
      exC5cache.get "/" = some exIndexEntry ∧
      exC5cache.get "index.html" = some exIndexEntry) :=
  ⟨rfl, by decide, get_root_alias exC5cache exIndexEntry rfl (by decide)⟩

/-! Claims C4 and C10 — lookup semantics of `get` and `get_fast`. -/

/-- Normalization performed by `FileCache::get`: strip one leading slash
first, then map an empty or bare-slash result to `index.html`. -/
def getKey (path : String) : String :=
  let normalized_path := if startsWithS path "/" then strDrop path 1 else path
  if normalized_path = "" ∨ normalized_path = "/" then "index.html"
  else normalized_path

theorem get_eq_lookup_getKey (c : FileCache) (path : String) :
    c.get path = if ¬c.enabled then none else mapLookup c.cache (getKey path) :=
  rfl

/-- Reading of claim C4's description of `get`, for comparison with the
code: on a hit the access counter is incremented and last-access is set to
the current time, both in the returned entry and in the stored one, and the
updated cache state is returned alongside the entry. -/
def getSpecClaimed (c : FileCache) (path : String) (now : Nat) :
    Option CachedFile × FileCache :=
  if ¬c.enabled then (none, c)
  else
    let cache_key := getKey path
    match mapLookup c.cache cache_key with
    | none => (none, c)
    | some e =>
      let e2 := e.access now
      (some e2, { c with cache := mapInsert c.cache cache_key e2 })

/-- Fixture for C4: a stored entry with a zero access counter. -/
def exC4entry : CachedFile :=
  { content := [1]
    mime_type := "m"
    last_modified := 0
    access_count := 0
    last_access := 0
    size := 1 }

/-- Fixture for C4: an enabled cache holding `exC4entry` under `"a"`. -/
def exC4cache : FileCache :=
  { cache := [("a", exC4entry)]
    total_size := 1
    max_size := 10
    root_path := "r"
    enabled := true }

/-- C4 counterexample: on a stored key the code's `get` returns the entry
with its access counter still at 0 and leaves the cache untouched, while the
claim demands the counter be incremented and last-access set to the current
time (here 5). -/
theorem get_bookkeeping_counterexample :
    exC4cache.get "a" = some exC4entry ∧
    exC4entry.access_count = 0 ∧
    (getSpecClaimed exC4cache "a" 5).1 = some (exC4entry.access 5) ∧
    ¬(exC4cache.get "a", exC4cache) = getSpecClaimed exC4cache "a" 5 := by
  refine ⟨by decide, by decide, by decide, by decide⟩

/-- C4 amended: `get` returns `None` when disabled, looks up under the
claimed normalization (one leading slash stripped, empty or bare-slash
mapped to `index.html`), returns exactly the stored entry on a hit — without
incrementing its access counter or touching last-access — and `None` on a
miss; the access bookkeeping lives in `CachedFile::access`/`get_content`,
invoked only when the caller reads the content. `get` takes no filesystem
collaborator, so it never reads the filesystem. -/
theorem get_returns_stored_entry (c : FileCache) (path : String) (now : Nat) :
    (c.enabled = false → c.get path = none) ∧
    (c.enabled = true → c.get path = mapLookup c.cache (getKey path)) ∧
    getKey "" = "index.html" ∧ getKey "/" = "index.html" ∧
    (∀ e, c.get path = some e → mapLookup c.cache (getKey path) = some e) ∧
    (∀ e : CachedFile,
      (e.access now).access_count = e.access_count + 1 ∧
      (e.access now).last_access = now ∧
      (e.access now).content = e.content) := by
  refine ⟨?_, ?_, rfl, rfl, ?_, ?_⟩
  · intro h
    rw [get_eq_lookup_getKey]
    simp [h]
  · intro h
    rw [get_eq_lookup_getKey]
    simp [h]
  · intro e he
    rw [get_eq_lookup_getKey] at he
    by_cases h : c.enabled
    · simpa [h] using he
    · simp [h] at he
  · intro e
    exact ⟨rfl, rfl, rfl⟩

/-- C4 witness: the amended lookup behaviour at a concrete cache state. -/
theorem get_returns_stored_entry_witness :
    exC4cache.enabled = true ∧
    exC4cache.get "a" = mapLookup exC4cache.cache (getKey "a") :=
  ⟨rfl, (get_returns_stored_entry exC4cache "a" 5).2.1 rfl⟩

/-- C10 counterexample: on the path `"//"`, `get` strips the leading slash,
sees the bare slash and looks up `index.html`, while `get_fast` strips the
leading slash and looks up `"/"`; with `index.html` stored they disagree. -/
theorem get_fast_divergence :
    exC5cache.get "//" = some exIndexEntry ∧
    exC5cache.get_fast "//" = none := by
  refine ⟨by decide, by decide⟩

theorem getKey_eq_fastKey {path : String} (h : path ≠ "//") :
    getKey path = fastKey path := by
  obtain ⟨l⟩ := path
  cases l with
  | nil => rfl
  | cons c cs =>
    by_cases hc : c = '/'
    · subst hc
      cases cs with
      | nil => rfl
      | cons c2 cs2 =>
        have hne : ¬((⟨'/' :: c2 :: cs2⟩ : String) = "/" ∨
            (⟨'/' :: c2 :: cs2⟩ : String) = "") := by
          simp [String.ext_iff]
        have hpre : startsWithS ⟨'/' :: c2 :: cs2⟩ "/" = true := by
          simp [startsWithS, List.isPrefixOf]
        by_cases h2 : c2 = '/' ∧ cs2 = []
        · exact absurd (by simp [String.ext_iff, h2.1, h2.2]) h
        · have hdrop : strDrop ⟨'/' :: c2 :: cs2⟩ 1 = ⟨c2 :: cs2⟩ := rfl
          have hkne : ¬((⟨c2 :: cs2⟩ : String) = "" ∨
              (⟨c2 :: cs2⟩ : String) = "/") := by
            simp only [String.ext_iff]
            simp only [not_or]
            constructor
            · simp
            · intro hx
              simp at hx
              exact h2 ⟨hx.1, hx.2⟩
          simp only [getKey, fastKey, hpre, if_true, hdrop, if_neg hkne,
            if_neg hne]
    · have hpre : startsWithS ⟨c :: cs⟩ "/" = false := by
        simp [startsWithS, List.isPrefixOf, hc]
        intro hx
        exact absurd hx.symm hc
      have hne : ¬((⟨c :: cs⟩ : String) = "/" ∨ (⟨c :: cs⟩ : String) = "") := by
        simp only [String.ext_iff, not_or]
        constructor
        · intro hx
          simp at hx
          exact hc hx.1
        · simp
      have hkne : ¬((⟨c :: cs⟩ : String) = "" ∨ (⟨c :: cs⟩ : String) = "/") := by
        rw [or_comm] at hne
        exact hne
      simp only [getKey, fastKey, hpre, Bool.false_eq_true, if_false,
        if_neg hkne, if_neg hne]

/-- C10 amended: `get` and `get_fast` return the same result on every cache
state and every path except `"//"`; on `"//"` alone their normalizations
disagree (`get` looks up `index.html`, `get_fast` looks up `"/"`), so they
differ whenever the cache stores different content under those two keys. -/
theorem get_eq_get_fast (c : FileCache) (path : String) (h : path ≠ "//") :
    c.get path = c.get_fast path := by
  rw [get_eq_lookup_getKey]
  unfold FileCache.get_fast
  rw [getKey_eq_fastKey h]

/-- C10 witness: agreement at a concrete path and cache state. -/
theorem get_eq_get_fast_witness :
    ("index.html" : String) ≠ "//" ∧
    exC5cache.get "index.html" = exC5cache.get_fast "index.html" :=
  ⟨by decide, get_eq_get_fast exC5cache "index.html" (by decide)⟩

/-! Claim C6 — the age sweep `cleanup_old_entries`. -/

/-- Sum of the sizes of the entries the sweep removes at time `now` with
threshold `T` (the source's `freed_size`). -/
def freedSize (c : FileCache) (T now : Nat) : Nat :=
  ((c.cache.filter (fun p => decide (now - p.2.last_access > T))).map
    (fun p => p.2.size)).sum

theorem cleanup_enabled_eq (c : FileCache) (T now : Nat)
    (hen : c.enabled = true) :
    c.cleanup_old_entries T now =
      { c with
        cache := c.cache.filter (fun p => decide (¬(now - p.2.last_access > T)))
        total_size :=
          if (c.cache.filter
              (fun p => decide (now - p.2.last_access > T))).length > 0
          then u64sub c.total_size (freedSize c T now)
          else c.total_size } := by
  unfold FileCache.cleanup_old_entries freedSize
  rw [if_neg (by simp [hen])]

/-- C6: the sweep is a no-op when the cache is disabled; otherwise, with the
current time `now` computed once and used for every entry, it retains exactly
the entries whose age `now - last_access` (saturating subtraction, as in the
source) is at most `T`, removes exactly those whose age exceeds `T`, and
subtracts the removed entries' total size from the total-size counter. -/
theorem cleanup_removes_exactly_stale (c : FileCache) (T now : Nat) :
    (c.enabled = false → c.cleanup_old_entries T now = c) ∧
    (c.enabled = true →
      (c.cleanup_old_entries T now).cache =
        c.cache.filter (fun p => decide (now - p.2.last_access ≤ T)) ∧
      (∀ p ∈ (c.cleanup_old_entries T now).cache, now - p.2.last_access ≤ T) ∧
      (∀ p ∈ c.cache, now - p.2.last_access > T →
        p ∉ (c.cleanup_old_entries T now).cache) ∧
      (∀ p ∈ c.cache, now - p.2.last_access ≤ T →
        p ∈ (c.cleanup_old_entries T now).cache) ∧
      (freedSize c T now ≤ c.total_size → c.total_size < U64LIM →
        (c.cleanup_old_entries T now).total_size =
          c.total_size - freedSize c T now)) := by
  constructor
  · intro h
    unfold FileCache.cleanup_old_entries
    rw [if_pos (by simp [h])]
  · intro hen
    rw [cleanup_enabled_eq c T now hen]
    have hfil :
        c.cache.filter (fun p => decide (¬(now - p.2.last_access > T))) =
          c.cache.filter (fun p => decide (now - p.2.last_access ≤ T)) := by
      refine List.filter_congr ?_
      intro p _
      simp only [decide_eq_decide]
      omega
    refine ⟨hfil, ?_, ?_, ?_, ?_⟩
    · intro p hp
      rw [hfil] at hp
      have := (List.mem_filter.mp hp).2
      simpa using this
    · intro p hp hage
      rw [hfil]
      intro hmem
      have := (List.mem_filter.mp hmem).2
      simp at this
      omega
    · intro p hp hage
      rw [hfil]
      exact List.mem_filter.mpr ⟨hp, by simpa using hage⟩
    · intro hle hlim
      by_cases hrem :
          (c.cache.filter
            (fun p => decide (now - p.2.last_access > T))).length > 0
      · simp only [if_pos hrem]
        exact u64sub_eq hle hlim
      · simp only [if_neg hrem]
        have hnil :
            c.cache.filter (fun p => decide (now - p.2.last_access > T)) = [] := by
          cases hx : c.cache.filter (fun p => decide (now - p.2.last_access > T)) with
          | nil => rfl
          | cons a t => rw [hx] at hrem; simp at hrem
        have hfz : freedSize c T now = 0 := by
          unfold freedSize
          rw [hnil]
          rfl
        rw [hfz]
        rfl

/-- Fixture for C6: an entry last accessed at time 0 (stale at 4000). -/
def exOldEntry : CachedFile :=
  { content := [1, 2]
    mime_type := "m"
    last_modified := 0
    access_count := 3
    last_access := 0
    size := 2 }

/-- Fixture for C6: an entry last accessed at time 3900 (fresh at 4000). -/
def exFreshEntry : CachedFile :=
  { content := [3]
    mime_type := "m"
    last_modified := 0
    access_count := 1
    last_access := 3900
    size := 1 }

/-- Fixture for C6: an enabled cache holding one stale and one fresh entry. -/
def exC6cache : FileCache :=
  { cache := [("old.html", exOldEntry), ("fresh.html", exFreshEntry)]
    total_size := 3
    max_size := 100
    root_path := "Public"
    enabled := true }

/-- C6 witness: sweeping `exC6cache` with `T = 3600` at `now = 4000` keeps
the fresh entry, drops the stale one and lowers the counter by its size. -/
theorem cleanup_removes_exactly_stale_witness :
    exC6cache.enabled = true ∧
    freedSize exC6cache 3600 4000 ≤ exC6cache.total_size ∧
    exC6cache.total_size < U64LIM ∧
    (exC6cache.cleanup_old_entries 3600 4000).cache =
      exC6cache.cache.filter (fun p => decide (4000 - p.2.last_access ≤ 3600)) ∧
    (exC6cache.cleanup_old_entries 3600 4000).total_size =
      exC6cache.total_size - freedSize exC6cache 3600 4000 :=
  ⟨rfl, by decide, by decide,
    ((cleanup_removes_exactly_stale exC6cache 3600 4000).2 rfl).1,
    ((cleanup_removes_exactly_stale exC6cache 3600 4000).2 rfl).2.2.2.2
      (by decide) (by decide)⟩

/-! Request-dispatch model from src/server.rs. Percent-decoding and the
    CORS-preflight short circuit happen upstream of everything modelled
    here; `decoded_path` is the already-decoded request path. Filesystem
    reads and target-URI parsing are external collaborators, passed in as
    functions. -/

/-- HTTP body as built by the source: raw bytes (`Body::from(Vec<u8>)`) or
a formatted string (`Body::from(String)`). -/
inductive HttpBody where
  | bytes (b : List Nat)
  | str (s : String)
  deriving DecidableEq, Repr

/-- Response model: the status code and the headers this core sets,
plus the body. -/
structure Response where
  status : Nat
  headers : List (String × String)
  body : HttpBody
  deriving DecidableEq, Repr

/-- Opening fragment of the synthesized error page, up to the title code. -/
def errorHtmlPre : String :=
  "<!DOCTYPE html>\n<html>\n<head>\n    <meta charset=\"utf-8\">\n    <title>"

/-- Fragment between the title code and the headline code (contains the
fixed styling of the source's format string). -/
def errorHtmlMid1 : String :=
  " - RouterWay</title>\n    <style>\n        body \x7b font-family: Arial, sans-serif; text-align: center; margin-top: 50px; \x7d\n        .error \x7b color: #e74c3c; \x7d\n    </style>\n</head>\n<body>\n    <h1 class=\"error\">"

/-- Fragment between the headline code and the message. -/
def errorHtmlMid2 : String := "</h1>\n    <p>"

/-- Closing fragment of the synthesized error page. -/
def errorHtmlSuf : String :=
  "</p>\n    <hr>\n    <small>RouterWay Server</small>\n</body>\n</html>"

/-- The synthesized minimal HTML error page of `create_error_response`:
the numeric status code appears in the title and in the headline. -/
def errorHtml (status : Nat) (message : String) : String :=
  errorHtmlPre ++ toString status ++ errorHtmlMid1 ++ toString status ++
    errorHtmlMid2 ++ message ++ errorHtmlSuf

/-- Model of `create_error_response`: the requested status, the fixed
headers, and the synthesized HTML body. -/
def create_error_response (status : Nat) (message : String) : Response :=
  { status := status
    headers := [("Content-Type", "text/html; charset=utf-8"),
                ("Access-Control-Allow-Origin", "*"),
                ("Server", "RouterWay")]
    body := .str (errorHtml status message) }

/-- Status-to-file mapping of `handle_error_page`. -/
def statusErrorFile (status : Nat) : String :=
  if status = 404 then "404.html"
  else if status = 400 then "400.html"
  else if status = 403 then "403.html"
  else if status = 500 then "500.html"
  else if status = 502 then "502.html"
  else if status = 503 then "503.html"
  else "error.html"

/-- Fallback message used when no error page exists on disk either. -/
def errorMessageFor (status : Nat) : String :=
  if status = 404 then "404 - 页面未找到"
  else if status = 500 then "500 - 内部服务器错误"
  else if status = 403 then "403 - 访问被拒绝"
  else "发生错误"

/-- Model of `handle_error_page`: resolve the canonical file through the
cache under `Errors/<file>`, then through the error-pages directory
(collaborator `diskErr`), then synthesize. Besides the response it returns
the list of cache keys looked up and of files read from disk. -/
def handle_error_page (status : Nat) (c : FileCache)
    (diskErr : String → Option (List Nat)) :
    Response × List String × List String :=
  let error_file := statusErrorFile status
  let error_relative_path := "Errors/" ++ error_file
  match c.get_fast error_relative_path with
  | some cached_file =>
    ({ status := status
       headers := [("Content-Type", "text/html; charset=utf-8"),
                   ("Access-Control-Allow-Origin", "*"),
                   ("Server", "RouterWay")]
       body := .bytes cached_file.content },
     [error_relative_path], [])
  | none =>
    match diskErr error_file with
    | some content =>
      ({ status := status
         headers := [("Content-Type", "text/html; charset=utf-8"),
                     ("Access-Control-Allow-Origin", "*"),
                     ("Server", "RouterWay")]
         body := .bytes content },
       [error_relative_path], [error_file])
    | none =>
      (create_error_response status (errorMessageFor status),
       [error_relative_path], [error_file])

/-- Last path component (after the last `/`), for mime resolution. -/
def fileNameOf (s : String) : List Char :=
  (s.data.reverse.takeWhile (fun c => c != '/')).reverse

/-- Model of `Path::extension`: the part of the file name after its last
dot, unless the only dot is a leading one. -/
def extensionOf (s : String) : Option String :=
  let name := fileNameOf s
  if (name.drop 1).contains '.' then
    some ⟨(name.reverse.takeWhile (fun c => c != '.')).reverse⟩
  else none

/-- Model of `get_mime_type` (src/cache.rs): fixed case-sensitive table. -/
def get_mime_type (file_path : String) : String :=
  match extensionOf file_path with
  | some "html" | some "htm" => "text/html; charset=utf-8"
  | some "css" => "text/css"
  | some "js" => "application/javascript"
  | some "json" => "application/json"
  | some "png" => "image/png"
  | some "jpg" | some "jpeg" => "image/jpeg"
  | some "gif" => "image/gif"
  | some "svg" => "image/svg+xml"
  | some "ico" => "image/x-icon"
  | some "txt" => "text/plain"
  | some "pdf" => "application/pdf"
  | some "zip" => "application/zip"
  | some "xml" => "application/xml"
  | _ => "application/octet-stream"

/-- Model of `handle_static_file`: normalize with the fast `match`, reject
paths whose normalized form contains `..` or `//`, else cache, else disk
(collaborator `diskRoot`, applied to the normalized path), else the 404
error page. Returns the response, the cache keys looked up, and the paths
read from the filesystem. -/
def handle_static_file (path : String) (c : FileCache)
    (diskRoot diskErr : String → Option (List Nat)) :
    Response × List String × List String :=
  let normalized_path := fastKey path
  if strContains normalized_path ".." || strContains normalized_path "//" then
    (create_error_response 403 "Access denied", [], [])
  else
    match c.get_fast normalized_path with
    | some cached_file =>
      ({ status := 200
         headers := [("Content-Type", cached_file.mime_type),
                     ("Cache-Control", "public, max-age=3600"),
                     ("Access-Control-Allow-Origin", "*"),
                     ("Server", "RouterWay")]
         body := .bytes cached_file.content },
       [normalized_path], [])
    | none =>
      match diskRoot normalized_path with
      | some content =>
        ({ status := 200
           headers := [("Content-Type", get_mime_type normalized_path),
                       ("Cache-Control", "public, max-age=3600"),
                       ("Access-Control-Allow-Origin", "*"),
                       ("Server", "RouterWay")]
           body := .bytes content },
         [normalized_path], [normalized_path])
      | none =>
        let r := handle_error_page 404 c diskErr
        (r.1, normalized_path :: r.2.1, normalized_path :: r.2.2)

/-- Model of `ApiConfig` (src/config.rs): a route's name, source prefix and
destination prefix. -/
structure ApiConfig where
  name : String
  «from» : String
  «to» : String
  deriving DecidableEq, Repr

/-- Replace the first occurrence of `pat` in the list by `tostr`
(Rust `str::replacen(pat, tostr, 1)`). -/
def replaceFirstChars : List Char → List Char → List Char → List Char
  | [], pat, tostr => if pat.isEmpty then tostr else []
  | l@(c :: rest), pat, tostr =>
    if pat.isPrefixOf l then tostr ++ l.drop pat.length
    else c :: replaceFirstChars rest pat tostr

/-- Model of Rust `str::replacen(.., .., 1)` on strings. -/
def replacen1 (s pat sub : String) : String :=
  ⟨replaceFirstChars s.data pat.data sub.data⟩

/-- Outcome of the modelled request dispatch: a proxied request carrying
the chosen route and rewritten target, a 400 for an unparsable target, or
a static-dispatch response with its cache-lookup and filesystem-read logs. -/
inductive RequestOutcome where
  | proxied (route : ApiConfig) (target : String)
  | badTarget (route : ApiConfig) (resp : Response)
  | staticFile (resp : Response) (cacheLookups : List String)
      (fsReads : List String)
  deriving DecidableEq, Repr

/-- Model of `handle_request` past decoding and the preflight check: the
first route whose source prefix starts the decoded path wins and the path
is rewritten with `replacen(from, to, 1)` (`handle_proxy_request`); an
unparsable rewritten target (collaborator `parseOk`) yields the 400
response; with no matching route the request goes to static dispatch. -/
def handle_request (decoded_path : String) (api_configs : List ApiConfig)
    (c : FileCache) (parseOk : String → Bool)
    (diskRoot diskErr : String → Option (List Nat)) : RequestOutcome :=
  match api_configs.find? (fun r => startsWithS decoded_path r.«from») with
  | some api_config =>
    let target_path := replacen1 decoded_path api_config.«from» api_config.«to»
    if parseOk target_path then .proxied api_config target_path
    else .badTarget api_config (create_error_response 400 "Invalid proxy target")
  | none =>
    let r := handle_static_file decoded_path c diskRoot diskErr
    .staticFile r.1 r.2.1 r.2.2

/-! Claim C1 — rejection of traversal-suspect paths. -/

/-- Fixture: a filesystem collaborator on which every read fails. -/
def exNoDisk : String → Option (List Nat) := fun _ => none

/-- C1 counterexample: the decoded path `"//"` contains the doubled
separator, matches no route (the table is empty), yet static dispatch does
not answer 403: the check runs on the normalized path `"/"`, so the request
proceeds to a cache lookup (logged key `"/"`, which `get_fast` resolves to
`index.html`) and is answered 200 from the cache. -/
theorem traversal_check_counterexample :
    strContains "//" "//" = true ∧
    handle_request "//" [] exC5cache (fun _ => true) exNoDisk exNoDisk =
      RequestOutcome.staticFile
        { status := 200
          headers := [("Content-Type", "text/html; charset=utf-8"),
                      ("Cache-Control", "public, max-age=3600"),
                      ("Access-Control-Allow-Origin", "*"),
                      ("Server", "RouterWay")]
          body := .bytes [104, 105] }
        ["/"] [] := by
  refine ⟨by decide, by decide⟩

/-- C1 amended: when the *normalized* path (fast normalization: `""` and
`"/"` map to `index.html`, otherwise one leading slash stripped) contains
`..` or `//`, and no configured route prefixes the decoded path, dispatch
answers 403 with empty cache-lookup and filesystem-read logs — for every
cache state, route table and filesystem. -/
theorem static_rejects_unsafe_normalized (path : String)
    (routes : List ApiConfig) (c : FileCache) (parseOk : String → Bool)
    (diskRoot diskErr : String → Option (List Nat))
    (hroutes : ∀ r ∈ routes, startsWithS path r.«from» = false)
    (hbad : strContains (fastKey path) ".." = true ∨
      strContains (fastKey path) "//" = true) :
    handle_request path routes c parseOk diskRoot diskErr =
      .staticFile (create_error_response 403 "Access denied") [] [] := by
  unfold handle_request
  have hfind : routes.find? (fun r => startsWithS path r.«from») = none := by
    refine List.find?_eq_none.mpr ?_
    intro r hr
    simp [hroutes r hr]
  rw [hfind]
  unfold handle_static_file
  have hcond : (strContains (fastKey path) ".." ||
      strContains (fastKey path) "//") = true := by
    rcases hbad with h | h <;> simp [h]
  simp only [hcond, if_true]

/-- Fixture for C1: one API route mapping `/api` to a backend. -/
def exApiRoute : ApiConfig :=
  { name := "user-api", «from» := "/api", «to» := "http://backend" }

/-- C1 witness: the amended rejection at the concrete path `/a//b`. -/
theorem static_rejects_unsafe_normalized_witness :
    (∀ r ∈ [exApiRoute], startsWithS "/a//b" r.«from» = false) ∧
    strContains (fastKey "/a//b") "//" = true ∧
    handle_request "/a//b" [exApiRoute] exC5cache (fun _ => true)
        exNoDisk exNoDisk =
      .staticFile (create_error_response 403 "Access denied") [] [] :=
  ⟨by decide, by decide,
    static_rejects_unsafe_normalized "/a//b" [exApiRoute] exC5cache
      (fun _ => true) exNoDisk exNoDisk (by decide) (Or.inr (by decide))⟩

/-! Claim C7 — first-match routing and first-occurrence rewriting. -/

theorem find?_first_characterization {α : Type} (p : α → Bool) :
    ∀ (l : List α) (a : α), l.find? p = some a →
      p a = true ∧ ∃ l₁ l₂, l = l₁ ++ a :: l₂ ∧ ∀ x ∈ l₁, p x = false := by
  intro l
  induction l with
  | nil => intro a h; simp at h
  | cons b t ih =>
    intro a h
    by_cases hb : p b = true
    · rw [List.find?_cons_of_pos _ hb] at h
      have hab : b = a := by injection h
      subst hab
      exact ⟨hb, [], t, rfl, by intro x hx; simp at hx⟩
    · rw [List.find?_cons_of_neg _ hb] at h
      obtain ⟨hpa, l₁, l₂, hsplit, hpre⟩ := ih a h
      refine ⟨hpa, b :: l₁, l₂, by rw [hsplit]; rfl, ?_⟩
      intro x hx
      rcases List.mem_cons.mp hx with hx | hx
      · subst hx
        exact Bool.not_eq_true _ ▸ (by simpa using hb)
      · exact hpre x hx

theorem replaceFirstChars_of_isPrefixOf {s pat : List Char} (tostr : List Char)
    (h : pat.isPrefixOf s = true) :
    replaceFirstChars s pat tostr = tostr ++ s.drop pat.length := by
  cases s with
  | nil =>
    cases pat with
    | nil => simp [replaceFirstChars, List.isEmpty]
    | cons c t => simp [List.isPrefixOf] at h
  | cons c t => simp [replaceFirstChars, h]

/-- Rewriting when the pattern is a prefix of the path: the destination
followed by the remainder of the path, verbatim. -/
theorem replacen1_of_prefix (path pre sub : String)
    (h : startsWithS path pre = true) :
    replacen1 path pre sub = sub ++ strDrop path pre.length := by
  unfold startsWithS at h
  unfold replacen1
  rw [replaceFirstChars_of_isPrefixOf _ h]
  apply String.ext
  show sub.data ++ path.data.drop pre.data.length = (sub ++ strDrop path pre.length).data
  rw [String.data_append]
  rfl

/-- C7: when the route table selects a route for the decoded path, that
route is the first in declared order whose source prefix starts the path;
the rewritten target is the destination prefix followed by the rest of the
path verbatim (only the first occurrence of the source prefix is replaced);
a parsable target is proxied with exactly that route and target, and an
unparsable one yields the 400 `Invalid proxy target` response. -/
theorem proxy_first_match_rewrite (routes : List ApiConfig) (path : String)
    (r : ApiConfig) (c : FileCache) (parseOk : String → Bool)
    (diskRoot diskErr : String → Option (List Nat))
    (hfind : routes.find? (fun x => startsWithS path x.«from») = some r) :
    (startsWithS path r.«from» = true ∧
      ∃ l₁ l₂, routes = l₁ ++ r :: l₂ ∧
        ∀ x ∈ l₁, startsWithS path x.«from» = false) ∧
    replacen1 path r.«from» r.«to» = r.«to» ++ strDrop path (r.«from»).length ∧
    (parseOk (replacen1 path r.«from» r.«to») = true →
      handle_request path routes c parseOk diskRoot diskErr =
        .proxied r (replacen1 path r.«from» r.«to»)) ∧
    (parseOk (replacen1 path r.«from» r.«to») = false →
      handle_request path routes c parseOk diskRoot diskErr =
        .badTarget r (create_error_response 400 "Invalid proxy target") ∧
      (create_error_response 400 "Invalid proxy target").status = 400) := by
  obtain ⟨hp, hfirst⟩ := find?_first_characterization _ routes r hfind
  refine ⟨⟨hp, hfirst⟩, replacen1_of_prefix path r.«from» r.«to» hp, ?_, ?_⟩
  · intro hok
    unfold handle_request
    rw [hfind]
    simp only [hok, if_true]
  · intro hbad
    refine ⟨?_, rfl⟩
    unfold handle_request
    rw [hfind]
    simp only [hbad, Bool.false_eq_true, if_false]

/-- C7 witness: route `/api -> http://backend/v1` applied to `/api/users`
rewrites to `http://backend/v1/users` and is proxied. -/
theorem proxy_first_match_rewrite_witness :
    [ApiConfig.mk "user-api" "/api" "http://backend/v1"].find?
        (fun x => startsWithS "/api/users" x.«from») =
      some (ApiConfig.mk "user-api" "/api" "http://backend/v1") ∧
    replacen1 "/api/users" "/api" "http://backend/v1" =
      "http://backend/v1" ++ strDrop "/api/users" ("/api" : String).length ∧
    handle_request "/api/users" [ApiConfig.mk "user-api" "/api" "http://backend/v1"]
        exC5cache (fun _ => true) exNoDisk exNoDisk =
      .proxied (ApiConfig.mk "user-api" "/api" "http://backend/v1")
        (replacen1 "/api/users" "/api" "http://backend/v1") :=
  ⟨by decide,
    (proxy_first_match_rewrite [ApiConfig.mk "user-api" "/api" "http://backend/v1"]
      "/api/users" (ApiConfig.mk "user-api" "/api" "http://backend/v1") exC5cache
      (fun _ => true) exNoDisk exNoDisk (by decide)).2.1,
    (proxy_first_match_rewrite [ApiConfig.mk "user-api" "/api" "http://backend/v1"]
      "/api/users" (ApiConfig.mk "user-api" "/api" "http://backend/v1") exC5cache
      (fun _ => true) exNoDisk exNoDisk (by decide)).2.2.1 rfl⟩

/-! Claim C9 — error-page resolution. -/

theorem errorHtml_contains_status (status : Nat) (message : String) :
    strContains (errorHtml status message) (toString status) = true := by
  unfold strContains errorHtml
  have h : (errorHtmlPre ++ toString status ++ errorHtmlMid1 ++ toString status ++
      errorHtmlMid2 ++ message ++ errorHtmlSuf).data =
      errorHtmlPre.data ++ (toString status).data ++
        (errorHtmlMid1.data ++ (toString status).data ++ errorHtmlMid2.data ++
          message.data ++ errorHtmlSuf.data) := by
    simp [String.data_append, List.append_assoc]
  rw [h]
  exact hasInfix_append_mid errorHtmlPre.data (toString status).data _

/-- C9: the resolver maps the six listed statuses to their canonical files
and every other status to `error.html`; the response always carries the
requested status and the permissive CORS header; the body comes from the
cache entry under `Errors/<file>` when present, else from the error-pages
directory, else it is the synthesized page, which contains the numeric
status code. -/
theorem error_page_resolution (status : Nat) (c : FileCache)
    (diskErr : String → Option (List Nat)) :
    (statusErrorFile 404 = "404.html" ∧ statusErrorFile 400 = "400.html" ∧
      statusErrorFile 403 = "403.html" ∧ statusErrorFile 500 = "500.html" ∧
      statusErrorFile 502 = "502.html" ∧ statusErrorFile 503 = "503.html") ∧
    (status ≠ 404 → status ≠ 400 → status ≠ 403 → status ≠ 500 →
      status ≠ 502 → status ≠ 503 → statusErrorFile status = "error.html") ∧
    (handle_error_page status c diskErr).1.status = status ∧
    ("Access-Control-Allow-Origin", "*") ∈
      (handle_error_page status c diskErr).1.headers ∧
    (∀ e, c.get_fast ("Errors/" ++ statusErrorFile status) = some e →
      (handle_error_page status c diskErr).1.body = .bytes e.content) ∧
    (c.get_fast ("Errors/" ++ statusErrorFile status) = none →
      ∀ b, diskErr (statusErrorFile status) = some b →
        (handle_error_page status c diskErr).1.body = .bytes b) ∧
    (c.get_fast ("Errors/" ++ statusErrorFile status) = none →
      diskErr (statusErrorFile status) = none →
      (handle_error_page status c diskErr).1.body =
        .str (errorHtml status (errorMessageFor status)) ∧
      strContains (errorHtml status (errorMessageFor status))
        (toString status) = true) := by
  refine ⟨⟨rfl, rfl, rfl, rfl, rfl, rfl⟩, ?_, ?_, ?_, ?_, ?_, ?_⟩
  · intro h1 h2 h3 h4 h5 h6
    simp [statusErrorFile, h1, h2, h3, h4, h5, h6]
  · unfold handle_error_page
    cases hget : c.get_fast ("Errors/" ++ statusErrorFile status) with
    | some e => simp [hget]
    | none =>
      cases hd : diskErr (statusErrorFile status) with
      | some b => simp [hget, hd]
      | none => simp [hget, hd, create_error_response]
  · unfold handle_error_page
    cases hget : c.get_fast ("Errors/" ++ statusErrorFile status) with
    | some e => simp [hget]
    | none =>
      cases hd : diskErr (statusErrorFile status) with
      | some b => simp [hget, hd]
      | none => simp [hget, hd, create_error_response]
  · intro e hget
    unfold handle_error_page
    simp [hget]
  · intro hget b hd
    unfold handle_error_page
    simp [hget, hd]
  · intro hget hd
    unfold handle_error_page
    simp [hget, hd, create_error_response]
    exact errorHtml_contains_status status (errorMessageFor status)

/-- C9 witness: a 404 with no cached and no on-disk error page yields the
synthesized page carrying status 404 (spec scenario 5). -/
theorem error_page_resolution_witness :
    exC5cache.get_fast ("Errors/" ++ statusErrorFile 404) = none ∧
    exNoDisk (statusErrorFile 404) = none ∧
    (handle_error_page 404 exC5cache exNoDisk).1.status = 404 ∧
    (handle_error_page 404 exC5cache exNoDisk).1.body =
      .str (errorHtml 404 (errorMessageFor 404)) :=
  ⟨by decide, rfl, (error_page_resolution 404 exC5cache exNoDisk).2.2.1,
    ((error_page_resolution 404 exC5cache exNoDisk).2.2.2.2.2.2
      (by decide) rfl).1⟩

/-! Claim C8 — initial population (`FileCache::initialize` and
    `load_file_to_cache`). A file encountered by the walk is its name
    (last component), cache key (root-stripped relative path with forward
    slashes), metadata size, mime type, modification time, and the result
    of reading its content (`none` models a failing read). -/

/-- A regular file encountered by the startup directory walk. -/
structure FsFile where
  name : String
  key : String
  metaSize : Nat
  mime : String
  modified : Nat
  content : Option (List Nat)
  deriving DecidableEq, Repr

/-- Hidden/temporary-file filter of `initialize`: names starting with `.`
or ending with `~` are skipped before any metadata or content access. -/
def skipNameF (f : FsFile) : Bool :=
  startsWithS f.name "." || endsWithS f.name "~"

/-- Result of one `load_file_to_cache` call, as `initialize` observes it:
the two silent skips return `Ok(0)`, a failing read returns `Err`, a
successful load returns `Ok(size)`. -/
inductive LoadOutcome where
  | skippedSize
  | skippedBudget
  | readFailed
  | loaded (size : Nat)
  deriving DecidableEq, Repr

/-- Model of `load_file_to_cache`: skip files over the 10 MiB ceiling;
skip — before reading any content — files whose metadata size added to the
cache's total counter would exceed the budget; otherwise read the content
(which may fail), store the entry under the relative key and add the
actual content length to the total counter. -/
def load_file_to_cache (c : FileCache) (f : FsFile) (now : Nat) :
    FileCache × LoadOutcome :=
  if f.metaSize > maxFileSize then (c, .skippedSize)
  else if c.total_size + f.metaSize > c.max_size then (c, .skippedBudget)
  else
    match f.content with
    | none => (c, .readFailed)
    | some content =>
      let cached_file := CachedFile.new content f.mime f.modified now
      ({ c with
          cache := mapInsert c.cache f.key cached_file
          total_size := u64add c.total_size cached_file.size },
       .loaded cached_file.size)

/-- The `Ok`/`Err` view of a load outcome (`Ok 0` for the silent skips). -/
def okSize : LoadOutcome → Option Nat
  | .skippedSize => some 0
  | .skippedBudget => some 0
  | .readFailed => none
  | .loaded n => some n

/-- Whether the outcome involved reading the file's content. -/
def didRead : LoadOutcome → Bool
  | .readFailed => true
  | .loaded _ => true
  | _ => false

/-- Whether the outcome stored an entry in the cache. -/
def didCache : LoadOutcome → Bool
  | .loaded _ => true
  | _ => false

/-- Result of the walk: final cache state, the files cached, the files
whose content was read, the files never examined because the walk stopped
early, and whether the early stop fired. -/
structure InitResult where
  state : FileCache
  cached : List FsFile
  reads : List FsFile
  unprocessed : List FsFile
  stopped : Bool
  deriving DecidableEq, Repr

/-- Model of the walk loop of `initialize`: `lt` is the loop's local
cumulative total of loaded sizes. A name-filtered file is skipped outright;
an `Err` from the load is logged and the walk continues without touching
the local total; an `Ok(size)` adds to the local total and stops the walk
as soon as it exceeds the budget. -/
def initRun (now : Nat) : FileCache → Nat → List FsFile → InitResult
  | c, _, [] => ⟨c, [], [], [], false⟩
  | c, lt, f :: rest =>
    if skipNameF f then initRun now c lt rest
    else
      match okSize (load_file_to_cache c f now).2 with
      | none =>
        let r := initRun now (load_file_to_cache c f now).1 lt rest
        ⟨r.state,
         (if didCache (load_file_to_cache c f now).2 then [f] else []) ++ r.cached,
         (if didRead (load_file_to_cache c f now).2 then [f] else []) ++ r.reads,
         r.unprocessed, r.stopped⟩
      | some sz =>
        if lt + sz > c.max_size then
          ⟨(load_file_to_cache c f now).1,
           (if didCache (load_file_to_cache c f now).2 then [f] else []),
           (if didRead (load_file_to_cache c f now).2 then [f] else []),
           rest, true⟩
        else
          let r := initRun now (load_file_to_cache c f now).1 (lt + sz) rest
          ⟨r.state,
           (if didCache (load_file_to_cache c f now).2 then [f] else []) ++ r.cached,
           (if didRead (load_file_to_cache c f now).2 then [f] else []) ++ r.reads,
           r.unprocessed, r.stopped⟩

/-- Model of `FileCache::initialize`: immediate return when disabled,
otherwise the walk starting from a zero local total. -/
def initialize_cache (c : FileCache) (now : Nat) (files : List FsFile) :
    InitResult :=
  if ¬c.enabled then ⟨c, [], [], files, false⟩
  else initRun now c 0 files

theorem initRun_props (now : Nat) (files : List FsFile) :
    ∀ (c : FileCache) (lt : Nat),
      (∀ f ∈ (initRun now c lt files).cached,
        skipNameF f = false ∧ f.metaSize ≤ maxFileSize) ∧
      (∀ f ∈ (initRun now c lt files).reads,
        skipNameF f = false ∧ f.metaSize ≤ maxFileSize) ∧
      ((initRun now c lt files).stopped = false →
        (initRun now c lt files).unprocessed = []) ∧
      (∃ pre, files = pre ++ (initRun now c lt files).unprocessed ∧
        (∀ f ∈ (initRun now c lt files).cached, f ∈ pre) ∧
        (∀ f ∈ (initRun now c lt files).reads, f ∈ pre)) := by
  induction files with
  | nil =>
    intro c lt
    refine ⟨?_, ?_, ?_, [], by simp [initRun], ?_, ?_⟩ <;> simp [initRun]
  | cons f rest ih =>
    intro c lt
    by_cases hskip : skipNameF f = true
    · have heq : initRun now c lt (f :: rest) = initRun now c lt rest := by
        simp [initRun, hskip]
      rw [heq]
      obtain ⟨ih1, ih2, ih3, pre, hpre, hc, hr⟩ := ih c lt
      exact ⟨ih1, ih2, ih3, f :: pre, by rw [List.cons_append, ← hpre],
        fun x hx => List.mem_cons_of_mem f (hc x hx),
        fun x hx => List.mem_cons_of_mem f (hr x hx)⟩
    · replace hskip : skipNameF f = false := by simpa using hskip
      by_cases h1 : f.metaSize > maxFileSize
      · -- skipped: over the per-file ceiling
        have hld : load_file_to_cache c f now = (c, .skippedSize) := by
          simp [load_file_to_cache, h1]
        by_cases hstop : lt > c.max_size
        · have heq : initRun now c lt (f :: rest) =
              ⟨c, [], [], rest, true⟩ := by
            simp [initRun, hskip, hld, okSize, didCache, didRead, hstop]
          rw [heq]
          refine ⟨fun x hx => by simp at hx, fun x hx => by simp at hx,
            fun h => by simp at h, [f], rfl,
            fun x hx => by simp at hx, fun x hx => by simp at hx⟩
        · have heq : initRun now c lt (f :: rest) = initRun now c lt rest := by
            simp [initRun, hskip, hld, okSize, didCache, didRead, hstop]
          rw [heq]
          obtain ⟨ih1, ih2, ih3, pre, hpre, hc, hr⟩ := ih c lt
          exact ⟨ih1, ih2, ih3, f :: pre, by rw [List.cons_append, ← hpre],
            fun x hx => List.mem_cons_of_mem f (hc x hx),
            fun x hx => List.mem_cons_of_mem f (hr x hx)⟩
      · by_cases h2 : c.total_size + f.metaSize > c.max_size
        · -- skipped: projected total over budget, content never read
          have hld : load_file_to_cache c f now = (c, .skippedBudget) := by
            simp [load_file_to_cache, h1, h2]
          by_cases hstop : lt > c.max_size
          · have heq : initRun now c lt (f :: rest) =
                ⟨c, [], [], rest, true⟩ := by
              simp [initRun, hskip, hld, okSize, didCache, didRead, hstop]
            rw [heq]
            refine ⟨fun x hx => by simp at hx, fun x hx => by simp at hx,
              fun h => by simp at h, [f], rfl,
              fun x hx => by simp at hx, fun x hx => by simp at hx⟩
          · have heq : initRun now c lt (f :: rest) = initRun now c lt rest := by
              simp [initRun, hskip, hld, okSize, didCache, didRead, hstop]
            rw [heq]
            obtain ⟨ih1, ih2, ih3, pre, hpre, hc, hr⟩ := ih c lt
            exact ⟨ih1, ih2, ih3, f :: pre, by rw [List.cons_append, ← hpre],
              fun x hx => List.mem_cons_of_mem f (hc x hx),
              fun x hx => List.mem_cons_of_mem f (hr x hx)⟩
        · cases hcon : f.content with
          | none =>
            -- read failed: logged, walk continues, local total untouched
            have hld : load_file_to_cache c f now = (c, .readFailed) := by
              simp [load_file_to_cache, h1, h2, hcon]
            have heq : initRun now c lt (f :: rest) =
                ⟨(initRun now c lt rest).state, (initRun now c lt rest).cached,
                 f :: (initRun now c lt rest).reads,
                 (initRun now c lt rest).unprocessed,
                 (initRun now c lt rest).stopped⟩ := by
              simp [initRun, hskip, hld, okSize, didCache, didRead]
            rw [heq]
            obtain ⟨ih1, ih2, ih3, pre, hpre, hc, hr⟩ := ih c lt
            refine ⟨ih1, ?_, ih3, f :: pre, by rw [List.cons_append, ← hpre],
              fun x hx => List.mem_cons_of_mem f (hc x hx), ?_⟩
            · intro x hx
              rcases List.mem_cons.mp hx with hx | hx
              · subst hx; exact ⟨hskip, by omega⟩
              · exact ih2 x hx
            · intro x hx
              rcases List.mem_cons.mp hx with hx | hx
              · subst hx; exact List.mem_cons_self _ _
              · exact List.mem_cons_of_mem f (hr x hx)
          | some content =>
            -- loaded: entry stored, content length added to the local total
            have hok : okSize (load_file_to_cache c f now).2 =
                some content.length := by
              simp [load_file_to_cache, h1, h2, hcon, okSize, CachedFile.new]
            have hdc : didCache (load_file_to_cache c f now).2 = true := by
              simp [load_file_to_cache, h1, h2, hcon, didCache]
            have hdr : didRead (load_file_to_cache c f now).2 = true := by
              simp [load_file_to_cache, h1, h2, hcon, didRead]
            by_cases hstop : lt + content.length > c.max_size
            · have heq : initRun now c lt (f :: rest) =
                  ⟨(load_file_to_cache c f now).1, [f], [f], rest, true⟩ := by
                simp [initRun, hskip, hok, hdc, hdr, hstop]
              rw [heq]
              refine ⟨?_, ?_, fun h => by simp at h, [f], rfl, ?_, ?_⟩
              · intro x hx
                simp only [List.mem_singleton] at hx
                subst hx; exact ⟨hskip, by omega⟩
              · intro x hx
                simp only [List.mem_singleton] at hx
                subst hx; exact ⟨hskip, by omega⟩
              · intro x hx
                simp only [List.mem_singleton] at hx
                subst hx; exact List.mem_cons_self _ _
              · intro x hx
                simp only [List.mem_singleton] at hx
                subst hx; exact List.mem_cons_self _ _
            · have heq : initRun now c lt (f :: rest) =
                  ⟨(initRun now (load_file_to_cache c f now).1
                      (lt + content.length) rest).state,
                   f :: (initRun now (load_file_to_cache c f now).1
                      (lt + content.length) rest).cached,
                   f :: (initRun now (load_file_to_cache c f now).1
                      (lt + content.length) rest).reads,
                   (initRun now (load_file_to_cache c f now).1
                      (lt + content.length) rest).unprocessed,
                   (initRun now (load_file_to_cache c f now).1
                      (lt + content.length) rest).stopped⟩ := by
                simp [initRun, hskip, hok, hdc, hdr, hstop]
              rw [heq]
              obtain ⟨ih1, ih2, ih3, pre, hpre, hc, hr⟩ :=
                ih (load_file_to_cache c f now).1 (lt + content.length)
              refine ⟨?_, ?_, ih3, f :: pre, by rw [List.cons_append, ← hpre],
                ?_, ?_⟩
              · intro x hx
                rcases List.mem_cons.mp hx with hx | hx
                · subst hx; exact ⟨hskip, by omega⟩
                · exact ih1 x hx
              · intro x hx
                rcases List.mem_cons.mp hx with hx | hx
                · subst hx; exact ⟨hskip, by omega⟩
                · exact ih2 x hx
              · intro x hx
                rcases List.mem_cons.mp hx with hx | hx
                · subst hx; exact List.mem_cons_self _ _
                · exact List.mem_cons_of_mem f (hc x hx)
              · intro x hx
                rcases List.mem_cons.mp hx with hx | hx
                · subst hx; exact List.mem_cons_self _ _
                · exact List.mem_cons_of_mem f (hr x hx)

/-- C8: during initial population over any sequence of encountered regular
files, (i) every cached and every read file passed the name filter (no
leading `.`, no trailing `~`) and the 10 MiB ceiling; (ii) the walk
processes a prefix of the sequence — everything cached or read lies in it —
and leaves a non-empty unprocessed remainder only when the early stop
fired; (iii) at any point of the walk, a file whose metadata size added to
the cache's total would exceed the budget is skipped without its content
being read and the walk continues unchanged; (iv) as soon as the cumulative
total of loaded sizes exceeds the budget the walk stops, leaving all later
files unexamined (hence never cached). -/
theorem initialize_skips_and_stops :
    (∀ (c : FileCache) (now : Nat) (files : List FsFile), c.enabled = true →
      (∀ f ∈ (initialize_cache c now files).cached,
        skipNameF f = false ∧ f.metaSize ≤ maxFileSize) ∧
      (∀ f ∈ (initialize_cache c now files).reads,
        skipNameF f = false ∧ f.metaSize ≤ maxFileSize) ∧
      ((initialize_cache c now files).stopped = false →
        (initialize_cache c now files).unprocessed = []) ∧
      (∃ pre, files = pre ++ (initialize_cache c now files).unprocessed ∧
        (∀ f ∈ (initialize_cache c now files).cached, f ∈ pre) ∧
        (∀ f ∈ (initialize_cache c now files).reads, f ∈ pre))) ∧
    (∀ (c : FileCache) (lt now : Nat) (f : FsFile) (rest : List FsFile),
      skipNameF f = false → f.metaSize ≤ maxFileSize →
      c.total_size + f.metaSize > c.max_size → lt ≤ c.max_size →
      didRead (load_file_to_cache c f now).2 = false ∧
      initRun now c lt (f :: rest) = initRun now c lt rest) ∧
    (∀ (c : FileCache) (lt now : Nat) (f : FsFile) (rest : List FsFile)
        (content : List Nat),
      skipNameF f = false → f.metaSize ≤ maxFileSize →
      f.content = some content → lt + content.length > c.max_size →
      c.total_size + f.metaSize ≤ c.max_size →
      initRun now c lt (f :: rest) =
        ⟨(load_file_to_cache c f now).1, [f], [f], rest, true⟩) := by
  refine ⟨?_, ?_, ?_⟩
  · intro c now files hen
    have hinit : initialize_cache c now files = initRun now c 0 files := by
      unfold initialize_cache
      rw [if_neg (by simp [hen])]
    rw [hinit]
    exact initRun_props now files c 0
  · intro c lt now f rest hskip hsize hbud hlt
    have h1 : ¬f.metaSize > maxFileSize := by omega
    have hld : load_file_to_cache c f now = (c, .skippedBudget) := by
      simp [load_file_to_cache, h1, hbud]
    have hstop : ¬lt > c.max_size := by omega
    constructor
    · simp [hld, didRead]
    · simp [initRun, hskip, hld, okSize, didCache, didRead, hstop]
  · intro c lt now f rest content hskip hsize hcon hstop hbud
    have h1 : ¬f.metaSize > maxFileSize := by omega
    have h2 : ¬c.total_size + f.metaSize > c.max_size := by omega
    have hok : okSize (load_file_to_cache c f now).2 = some content.length := by
      simp [load_file_to_cache, h1, h2, hcon, okSize, CachedFile.new]
    have hdc : didCache (load_file_to_cache c f now).2 = true := by
      simp [load_file_to_cache, h1, h2, hcon, didCache]
    have hdr : didRead (load_file_to_cache c f now).2 = true := by
      simp [load_file_to_cache, h1, h2, hcon, didRead]
    simp [initRun, hskip, hok, hdc, hdr, hstop]

/-- Fixture for C8: a hidden file, skipped by name before any access. -/
def exWalkHidden : FsFile :=
  { name := ".hidden", key := ".hidden", metaSize := 1, mime := "m",
    modified := 0, content := some [1] }

/-- Fixture for C8: a file whose metadata says 1 byte but whose content
read yields 20 bytes, pushing the cumulative total past the budget. -/
def exWalkBig : FsFile :=
  { name := "a.txt", key := "a.txt", metaSize := 1, mime := "text/plain",
    modified := 0, content := some (List.replicate 20 1) }

/-- Fixture for C8: a file encountered after the early stop. -/
def exWalkLate : FsFile :=
  { name := "b.txt", key := "b.txt", metaSize := 1, mime := "m",
    modified := 0, content := some [1] }

/-- Fixture for C8: a fresh enabled cache with a 10-byte budget. -/
def exWalkCache : FileCache := FileCache.new "root" 10 true

/-- C8 witness: on a concrete walk the hidden file is skipped, loading
`exWalkBig` overshoots the budget, the walk stops, and the late file stays
unprocessed and uncached. -/
theorem initialize_skips_and_stops_witness :
    exWalkCache.enabled = true ∧
    (∀ f ∈ (initialize_cache exWalkCache 0
        [exWalkHidden, exWalkBig, exWalkLate]).cached,
      skipNameF f = false ∧ f.metaSize ≤ maxFileSize) ∧
    (initialize_cache exWalkCache 0
        [exWalkHidden, exWalkBig, exWalkLate]).cached = [exWalkBig] ∧
    (initialize_cache exWalkCache 0
        [exWalkHidden, exWalkBig, exWalkLate]).unprocessed = [exWalkLate] ∧
    (initialize_cache exWalkCache 0
        [exWalkHidden, exWalkBig, exWalkLate]).stopped = true :=
  ⟨rfl,
    (initialize_skips_and_stops.1 exWalkCache 0
      [exWalkHidden, exWalkBig, exWalkLate] rfl).1,
    by decide, by decide, by decide⟩
